import Mathlib

/-!
Verification development for the doc484 docstring-parsing core
(`doc484/formats.py` and the vendored napoleon converter `doc484/parsers.py`).

The Python sources are embedded shallowly:

* strings are `List Char` (`Line`) internally; `String` appears only at the
  public boundary (`Arg.type`, parameter keys);
* the stateful napoleon line iterator (`modify_iter`) becomes explicit state
  passing over the list of remaining lines; its `modifier` (per-line
  `rstrip`) is pure and applied exactly once per produced line, so it is
  applied up front;
* regular expressions that the source compiles are embedded as first-order
  functions whose semantics are derived, case by case, from Python `re`
  backtracking on the concrete pattern (each derivation is documented at the
  definition);
* the docutils reStructuredText tree builder is not part of this repository;
  it is modelled from the specification (definitions marked
  `Modelled from the spec:`), with its line-numbering convention pinned by
  the repository's own test suite (`tests/test_doc484.py`).

Loops whose termination Lean cannot see structurally take a fuel argument;
every such loop in the source consumes at least one line of the iterator per
iteration, so fuel `remaining length + 1` (what the callers pass) never runs
out and the embedding agrees with the Python control flow.
-/

namespace Doc484

/-- Lines of text are lists of characters. -/
abbrev Line := List Char

/-- Python `str.isspace` for the ASCII whitespace characters
(space, tab, newline, carriage return, vertical tab, form feed). -/
def isPySpace (c : Char) : Bool :=
  c = ' ' || c = '\t' || c = '\n' || c = '\r' || c = '\x0b' || c = '\x0c'

/-- Python `\w` (ASCII range): letters, digits and underscore. -/
def isPyWord (c : Char) : Bool :=
  c.isAlpha || c.isDigit || c = '_'

/-- Python `str.lstrip()`. -/
def pyLstrip (l : Line) : Line := l.dropWhile isPySpace

/-- Python `str.rstrip()`. -/
def pyRstrip (l : Line) : Line := (l.reverse.dropWhile isPySpace).reverse

/-- Python `str.strip()`. -/
def pyStrip (l : Line) : Line := pyRstrip (pyLstrip l)

/-- Python `str.strip(c)` for a single character `c` (used as `.strip(':')`). -/
def stripCharBoth (c : Char) (l : Line) : Line :=
  ((l.dropWhile (· = c)).reverse.dropWhile (· = c)).reverse

/-- Python `str.lower()` (adequate for the ASCII text handled here). -/
def lowerLine (l : Line) : Line := l.map Char.toLower

/-- Python `str.split()` with no argument: split on runs of whitespace,
dropping empty pieces.  Fuel is the length of the input. -/
def splitWSF : Nat → Line → List Line
  | 0, _ => []
  | fuel + 1, l =>
    match l.dropWhile isPySpace with
    | [] => []
    | l' =>
      let w := l'.takeWhile (fun c => !isPySpace c)
      w :: splitWSF fuel (l'.drop w.length)

/-- Python `str.split()` with no argument. -/
def splitWS (l : Line) : List Line := splitWSF (l.length + 1) l

/-- Split a character list on newline characters (Python `str.split('\n')`;
the result is never empty). -/
def splitNLF : Nat → Line → List Line
  | 0, _ => [[]]
  | fuel + 1, l =>
    let w := l.takeWhile (· ≠ '\n')
    match l.drop w.length with
    | [] => [w]
    | _ :: rest => w :: splitNLF fuel rest

/-- Python `str.split('\n')`. -/
def splitNL (l : Line) : List Line := splitNLF (l.length + 1) l

/-- Python `str.splitlines()` restricted to `'\n'` separators: like
`split('\n')` but a trailing newline does not produce a final empty piece,
and the empty string yields no lines. -/
def splitlinesPy (l : Line) : List Line :=
  if l = [] then []
  else
    let parts := splitNL l
    if l.getLast? = some '\n' then parts.dropLast else parts

/-- Join lines with newline characters (Python `'\n'.join`). -/
def joinNL (ls : List Line) : Line := (ls.intersperse ['\n']).flatten

/-- Does `pat` occur as a contiguous substring of `l`? -/
def containsSeq (pat l : Line) : Bool :=
  (List.range (l.length + 1)).any fun i => pat.isPrefixOf (l.drop i)

/-- Python `str.expandtabs()` with tab size 8: each tab advances to the next
multiple of 8 in the current column; newlines and carriage returns reset the
column. -/
def expandTabsGo : Line → Nat → Line
  | [], _ => []
  | c :: rest, col =>
    if c = '\t' then
      let n := 8 - col % 8
      List.replicate n ' ' ++ expandTabsGo rest (col + n)
    else if c = '\n' || c = '\r' then
      c :: expandTabsGo rest 0
    else
      c :: expandTabsGo rest (col + 1)

/-- Python `str.expandtabs()`. -/
def expandTabs (l : Line) : Line := expandTabsGo l 0

/-- Number of leading whitespace characters of a line. -/
def leadingWS (l : Line) : Nat := (l.takeWhile isPySpace).length

/-- Embeds `inspect.cleandoc`, transcribed from CPython: expand tabs, compute the
common margin of all lines after the first that have content, strip it from
those lines, `lstrip` the first line, then drop leading and trailing blank
lines. -/
def cleandocL (s : Line) : Line :=
  let lines := splitNL (expandTabs s)
  let margin : Option Nat :=
    lines.tail.foldl
      (fun m line =>
        if pyLstrip line = [] then m
        else
          let ind := line.length - (pyLstrip line).length
          match m with
          | none => some ind
          | some m0 => some (min m0 ind))
      none
  let lines : List Line :=
    match lines with
    | [] => []
    | first :: rest =>
      pyLstrip first ::
        (match margin with
         | none => rest
         | some m => rest.map (fun l => l.drop m))
  let lines := (lines.reverse.dropWhile (· = [])).reverse
  let lines := lines.dropWhile (· = [])
  joinNL lines

/-- Embeds `doc484.formats._cleandoc`: `inspect.cleandoc` followed by removal of
every backtick character. -/
def _cleandoc (s : Line) : Line := (cleandocL s).filter (· ≠ '\x60')

/-- First `some` produced by `f` over the list, in order (backtracking
search helper). -/
def firstSome (l : List α) (f : α → Option β) : Option β :=
  match l with
  | [] => none
  | x :: rest =>
    match f x with
    | some b => some b
    | none => firstSome rest f

/-- Embeds `doc484.parsers._google_section_regex`, `^(\s|\w)+:\s*$`, as a predicate
on a whole line.  The character class cannot contain `':'`, so the greedy
`(\s|\w)+` is forced to be the maximal leading run of space/word characters,
the next character must be `':'`, and everything after it must be
whitespace. -/
def _google_section_regex (l : Line) : Bool :=
  let run := l.takeWhile fun c => isPySpace c || isPyWord c
  run ≠ [] && (l.drop run.length).head? = some ':' &&
    (l.drop (run.length + 1)).all isPySpace

/-- The underline characters of `doc484.parsers._numpy_section_regex`. -/
def isNumpyUnderlineChar (c : Char) : Bool :=
  c = '=' || c = '-' || c = '\x60' || c = ':' || c = '\x27' || c = '"' ||
  c = '~' || c = '^' || c = '_' || c = '*' || c = '+' || c = '#' ||
  c = '<' || c = '>'

/-- Embeds `doc484.parsers._numpy_section_regex`, `^[=\-\x60:'"~^_*+#<>]{2,}\s*$`:
the underline characters and whitespace are disjoint classes, so the line
must be a maximal run of at least two underline characters followed only by
whitespace. -/
def _numpy_section_regex (l : Line) : Bool :=
  let run := l.takeWhile isNumpyUnderlineChar
  run.length ≥ 2 && (l.drop run.length).all isPySpace

/-- Embeds `doc484.parsers._directive_regex`, `\.\. \S+::` under `re.match`: after
the literal `".. "`, the greedy `\S+` backtracks until a `"::"` follows, and
`':'` itself is a non-space character, so the pattern matches exactly when
the maximal non-space run after `".. "` contains `"::"` starting at an index
of at least 1. -/
def _directive_regex (l : Line) : Bool :=
  ['.', '.', ' '].isPrefixOf l &&
    (let r := (l.drop 3).takeWhile fun c => !isPySpace c
     (List.range r.length).any fun i =>
       i ≥ 1 && [':', ':'].isPrefixOf (r.drop i))

/-- Candidate rests for a greedy `\s*` at the start of `s`, with the number
of consumed leading spaces descending (Python tries the longest first). -/
def greedySpaceSplits (s : Line) : List Line :=
  let m := (s.takeWhile isPySpace).length
  (List.range (m + 1)).map fun i => s.drop (m - i)

/-- Candidate splits for a lazy `(.+?)` capture: `(capture, rest)` with the
capture length ascending from 1; the capture may not contain a newline. -/
def lazyCaptures (s : Line) : List (Line × Line) :=
  let m := (s.takeWhile (· ≠ '\n')).length
  (List.range m).map fun i => (s.take (i + 1), s.drop (i + 1))

/-- After a greedy `\s*`, a literal character `c` can only match at the end
of the maximal space run (shrinking the run only re-exposes a space, which
is not `c`): returns the rest after `\s*c`, if it matches. -/
def afterSpacesChar (c : Char) (s : Line) : Option Line :=
  let sp := (s.takeWhile isPySpace).length
  match (s.drop sp).head? with
  | some c0 => if c0 = c then some (s.drop (sp + 1)) else none
  | none => none

/-- Embeds `doc484.parsers._google_typed_arg_regex`,
`\s*(.+?)\s*\(\s*(.+?)\s*\)` under `re.match`, returning
`(group 1, group 2)`.  The search order mirrors Python backtracking: the
leading greedy `\s*` tries the longest prefix of spaces first; the lazy
`(.+?)` tries the shortest capture first; after a capture, `\s*` followed by
a literal parenthesis is deterministic (`afterSpacesChar`). -/
def _google_typed_arg_regex (s : Line) : Option (Line × Line) :=
  firstSome (greedySpaceSplits s) fun s1 =>
    firstSome (lazyCaptures s1) fun (g1, r1) =>
      match afterSpacesChar '(' r1 with
      | none => none
      | some r2 =>
        firstSome (greedySpaceSplits r2) fun s2 =>
          firstSome (lazyCaptures s2) fun (g2, r3) =>
            match afterSpacesChar ')' r3 with
            | none => none
            | some _ => some (g1, g2)

/-- Embeds `doc484.formats.NAMED_RESULTS_REG`,
`[a-zA-Z_][a-zA-Z0-9_]*\s+\((.*)\) -- ` under `re.match`: the word run and
the following space run are deterministic (their classes are disjoint and
neither contains `'('`); the greedy `(.*)` then captures up to the last
position `q` such that `')'` is at `q`, the four characters `" -- "` follow,
and no newline occurs before `q` (the dot does not match newlines). -/
def NAMED_RESULTS_REG (s : Line) : Option Line :=
  match s with
  | [] => none
  | c :: rest =>
    if c.isAlpha || c = '_' then
      let afterWord := rest.dropWhile fun x => x.isAlpha || x.isDigit || x = '_'
      let sp := (afterWord.takeWhile isPySpace).length
      if sp = 0 then none
      else
        match afterWord.drop sp with
        | '(' :: u =>
          firstSome (List.range (u.length + 1)).reverse fun q =>
            if u.get? q = some ')' &&
               [' ', '-', '-', ' '].isPrefixOf (u.drop (q + 1)) &&
               (u.take q).all (· ≠ '\n')
            then some (u.take q) else none
        | _ => none
    else none

/-- Embeds `doc484.parsers.GoogleDocstring._partition_field_on_colon`.  The method
first splits the line on `_xref_regex`; every alternative of that pattern
requires a backtick, and every line reaching this method comes from
`_cleandoc`, which removes all backticks, so the split always returns the
line whole.  The loop then partitions the line at its first colon. -/
def _partition_field_on_colon (l : Line) : Line × Line × Line :=
  if ':' ∈ l then
    let before := l.takeWhile (· ≠ ':')
    (pyStrip before, [':'], pyStrip (l.drop (before.length + 1)))
  else
    (pyStrip l, [], [])

/-! ## The vendored napoleon converter (`doc484/parsers.py`)

`GoogleDocstring` and its subclass `NumpyDocstring` convert Google- and
NumPy-convention docstrings to reStructuredText.  The dynamic dispatch of
the overridden methods (`_consume_field`, `_consume_returns_section`,
`_consume_section_header`, `_is_section_break`, `_is_section_header`,
`_directive_sections`) is modelled by a `Sty` parameter.  The mutable
iterator state and the `_is_in_section`/`_section_indent` attributes become
the record `NSt`.  The configuration is fixed by `RestBaseFormat.config =
Config(napoleon_use_param=True, napoleon_use_rtype=True)`. -/

/-- Which concrete docstring class is running (dynamic dispatch). -/
inductive Sty where
  | google
  | numpy
deriving DecidableEq

/-- Iterator and section state of a `GoogleDocstring`/`NumpyDocstring`
instance: the remaining (already `rstrip`-ped) lines, `_is_in_section` and
`_section_indent`. -/
structure NSt where
  lns : List Line
  inSec : Bool
  secInd : Nat

def napoleon_use_param : Bool := true

def napoleon_use_rtype : Bool := true

/-- Embeds `peek()` on the line iterator; `none` is the sentinel. -/
def peekL (st : NSt) : Option Line := st.lns.head?

/-- Embeds `has_next()`: the next `peek` would not be the sentinel. -/
def hasNextL (st : NSt) : Bool := !st.lns.isEmpty

/-- Embeds `next()` on the line iterator.  Never called at exhaustion by the
source (guarded by `has_next`/section-break checks); returns the empty line
in that unreachable case. -/
def nextL (st : NSt) : Line × NSt :=
  match st.lns with
  | [] => ([], st)
  | l :: r => (l, { st with lns := r })

/-- The `_sections` table keys of `GoogleDocstring.__init__`. -/
def sectionKeysL : List Line :=
  ["args", "arguments", "attributes", "example", "examples",
   "keyword args", "keyword arguments", "methods", "note", "notes",
   "other parameters", "parameters", "return", "returns", "raises",
   "references", "see also", "todo", "warning", "warnings", "warns",
   "yield", "yields"].map String.data

/-- The handler a `_sections` key maps to. -/
inductive SecH where
  | hparams
  | hreturns
  | hyields
  | hskip

/-- Handler dispatch of the `_sections` table (keys not in the table never
reach the lookup in the source; they fall to `hskip` here). -/
def handlerFor (k : Line) : SecH :=
  if k = "args".data || k = "arguments".data || k = "parameters".data then .hparams
  else if k = "return".data || k = "returns".data then .hreturns
  else if k = "yield".data || k = "yields".data then .hyields
  else .hskip

/-- Embeds `GoogleDocstring._get_indent`: index of the first non-space character,
or the length for an all-space line. -/
def _get_indent (l : Line) : Nat := (l.takeWhile isPySpace).length

/-- Embeds `GoogleDocstring._is_indented(line, indent)`: the scan returns `True` as
soon as it reaches index `indent`, and `False` on an earlier non-space
character or at the end of the line. -/
def _is_indented (l : Line) (ind : Nat) : Bool :=
  ind < l.length && (l.take ind).all isPySpace

/-- Embeds `GoogleDocstring._get_current_indent(peek_ahead)`: indent of the first
non-empty upcoming line, or 0. -/
def _get_current_indent (st : NSt) (ahead : Nat) : Nat :=
  match (st.lns.drop ahead).find? (fun l => !l.isEmpty) with
  | some l => _get_indent l
  | none => 0

/-- Embeds `_is_section_header`, dispatched on the concrete class.  The Google
variant requires the (lowercased) line to match `_google_section_regex`,
its colon-stripped form to be a section key, and the following content to be
indented deeper than the header; `_directive_sections` is empty for Google,
so its directive branch is dead.  The NumPy variant requires a section-key
line followed by a real underline line, with a `.. index::` directive
fallback. -/
def _is_section_header (sty : Sty) (st : NSt) : Bool :=
  match sty with
  | .google =>
    match peekL st with
    | none => false
    | some pl =>
      let sec := lowerLine pl
      if _google_section_regex sec && sectionKeysL.contains (stripCharBoth ':' sec) then
        decide (_get_current_indent st 1 > _get_indent sec)
      else false
  | .numpy =>
    match peekL st with
    | none => false
    | some l1 =>
      let sec := lowerLine l1
      match st.lns[1]? with
      | some u =>
        if sectionKeysL.contains sec then _numpy_section_regex u
        else if _directive_regex sec then ".. index::".data.isPrefixOf sec
        else false
      | none =>
        if _directive_regex sec then ".. index::".data.isPrefixOf sec
        else false

/-- Embeds `_is_section_break`, dispatched on the concrete class.  (At exhaustion
the first disjunct short-circuits before the sentinel is inspected.) -/
def _is_section_break (sty : Sty) (st : NSt) : Bool :=
  match sty with
  | .google =>
    if !hasNextL st then true
    else if _is_section_header .google st then true
    else
      match peekL st with
      | some l => st.inSec && !l.isEmpty && !_is_indented l st.secInd
      | none => true
  | .numpy =>
    if !hasNextL st then true
    else if _is_section_header .numpy st then true
    else if st.lns.head? = some [] && st.lns[1]? = some [] then true
    else
      match peekL st with
      | some l => st.inSec && !l.isEmpty && !_is_indented l st.secInd
      | none => true

/-- Embeds `GoogleDocstring._consume_empty` (fuelled; consumes one line per
iteration). -/
def _consume_emptyF : Nat → NSt → List Line × NSt
  | 0, st => ([], st)
  | fuel + 1, st =>
    match st.lns with
    | [] :: _ =>
      let (v, st1) := nextL st
      let (ls, st2) := _consume_emptyF fuel st1
      (v :: ls, st2)
    | _ => ([], st)

def _consume_empty (st : NSt) : List Line × NSt :=
  _consume_emptyF (st.lns.length + 1) st

/-- Embeds `GoogleDocstring._consume_indented_block` (fuelled). -/
def _consume_indented_blockF (sty : Sty) (ind : Nat) : Nat → NSt → List Line × NSt
  | 0, st => ([], st)
  | fuel + 1, st =>
    if _is_section_break sty st then ([], st)
    else
      match peekL st with
      | none => ([], st)
      | some l =>
        if l.isEmpty || _is_indented l ind then
          let (v, st1) := nextL st
          let (ls, st2) := _consume_indented_blockF sty ind fuel st1
          (v :: ls, st2)
        else ([], st)

def _consume_indented_block (sty : Sty) (ind : Nat) (st : NSt) : List Line × NSt :=
  _consume_indented_blockF sty ind (st.lns.length + 1) st

/-- Embeds `GoogleDocstring._consume_contiguous` (fuelled). -/
def _consume_contiguousF (sty : Sty) : Nat → NSt → List Line × NSt
  | 0, st => ([], st)
  | fuel + 1, st =>
    match peekL st with
    | none => ([], st)
    | some l =>
      if !l.isEmpty && !_is_section_header sty st then
        let (v, st1) := nextL st
        let (ls, st2) := _consume_contiguousF sty fuel st1
        (v :: ls, st2)
      else ([], st)

def _consume_contiguous (sty : Sty) (st : NSt) : List Line × NSt :=
  _consume_contiguousF sty (st.lns.length + 1) st

/-- The non-empty-line loop of `_consume_to_next_section` (fuelled). -/
def _consume_to_breakF (sty : Sty) : Nat → NSt → List Line × NSt
  | 0, st => ([], st)
  | fuel + 1, st =>
    if _is_section_break sty st then ([], st)
    else
      let (v, st1) := nextL st
      let (ls, st2) := _consume_to_breakF sty fuel st1
      (v :: ls, st2)

/-- Embeds `GoogleDocstring._consume_to_next_section`: discard leading empty
lines, consume to the section break, then also consume (and return) the
trailing empty lines. -/
def _consume_to_next_section (sty : Sty) (st : NSt) : List Line × NSt :=
  let (_, st1) := _consume_empty st
  let (lines, st2) := _consume_to_breakF sty (st1.lns.length + 1) st1
  let (e2, st3) := _consume_empty st2
  (lines ++ e2, st3)

/-- Embeds `GoogleDocstring._get_min_indent` (`min_indent or 0` maps `None` to 0). -/
def _get_min_indent (ls : List Line) : Nat :=
  (ls.foldl
    (fun m l =>
      if l.isEmpty then m
      else
        match m with
        | none => some (_get_indent l)
        | some v => some (min v (_get_indent l)))
    none).getD 0

/-- Embeds `GoogleDocstring._dedent`. -/
def _dedent (ls : List Line) (full : Bool) : List Line :=
  if full then ls.map pyLstrip
  else
    let m := _get_min_indent ls
    ls.map fun l => l.drop m

/-- Embeds `GoogleDocstring._escape_args_and_kwargs`. -/
def _escape_args_and_kwargs (n : Line) : Line :=
  if n.take 2 = ['*', '*'] then '\\' :: '*' :: '\\' :: '*' :: n.drop 2
  else if n.take 1 = ['*'] then '\\' :: '*' :: n.drop 1
  else n

/-- Embeds `_consume_field`, dispatched on the concrete class.  Returns the
`(name, type)` pair; the indented description block is consumed and
discarded, exactly as in the source. -/
def _consume_field (sty : Sty) (parseType preferType : Bool) (st : NSt) :
    (Line × Line) × NSt :=
  match sty with
  | .google =>
    let (line, st1) := nextL st
    let (before, _colon, _after) := _partition_field_on_colon line
    let (name1, type1) : Line × Line :=
      if parseType then
        match _google_typed_arg_regex before with
        | some (n, t) => (n, t)
        | none => (before, [])
      else (before, [])
    let name2 := _escape_args_and_kwargs name1
    let (typeF, nameF) : Line × Line :=
      if preferType && type1.isEmpty then (name2, type1) else (type1, name2)
    let ind := _get_indent line + 1
    let (_, st2) := _consume_indented_block sty ind st1
    ((nameF, typeF), st2)
  | .numpy =>
    let (line, st1) := nextL st
    let (n0, t0) : Line × Line :=
      if parseType then
        let (b, _c, a) := _partition_field_on_colon line
        (b, a)
      else (line, [])
    let n2 := _escape_args_and_kwargs (pyStrip n0)
    let t1 := pyStrip t0
    let (typeF, nameF) : Line × Line :=
      if preferType && t1.isEmpty then (n2, t1) else (t1, n2)
    let ind := _get_indent line + 1
    let (_, st2) := _consume_indented_block sty ind st1
    ((nameF, typeF), st2)

/-- The field loop of `_consume_fields` (fuelled; `_consume_field` consumes
at least the field line itself on every iteration). -/
def _consume_fieldsF (sty : Sty) (parseType preferType : Bool) :
    Nat → NSt → List (Line × Line) × NSt
  | 0, st => ([], st)
  | fuel + 1, st =>
    if _is_section_break sty st then ([], st)
    else
      let ((n, t), st1) := _consume_field sty parseType preferType st
      let (fs, st2) := _consume_fieldsF sty parseType preferType fuel st1
      (if !n.isEmpty || !t.isEmpty then (n, t) :: fs else fs, st2)

/-- Embeds `GoogleDocstring._consume_fields`. -/
def _consume_fields (sty : Sty) (parseType preferType : Bool) (st : NSt) :
    List (Line × Line) × NSt :=
  let (_, st1) := _consume_empty st
  _consume_fieldsF sty parseType preferType (st1.lns.length + 1) st1

/-- Embeds `_consume_returns_section`, dispatched on the concrete class: NumPy
reuses `_consume_fields(prefer_type=True)`; Google inspects the first line
of the dedented section body. -/
def _consume_returns_section (sty : Sty) (st : NSt) : List (Line × Line) × NSt :=
  match sty with
  | .numpy => _consume_fields .numpy true true st
  | .google =>
    let (ls0, st1) := _consume_to_next_section .google st
    let lines := _dedent ls0 false
    match lines with
    | [] => ([], st1)
    | first :: _ =>
      let (before, colon, _after) := _partition_field_on_colon first
      if !colon.isEmpty then
        match _google_typed_arg_regex before with
        | some (n, t) => ([(n, t)], st1)
        | none => ([([], before)], st1)
      else ([([], [])], st1)

/-- Embeds `_consume_section_header`, dispatched on the concrete class. -/
def _consume_section_header (sty : Sty) (st : NSt) : Line × NSt :=
  match sty with
  | .google =>
    let (sec, st1) := nextL st
    let stripped := stripCharBoth ':' sec
    if sectionKeysL.contains (lowerLine stripped) then (stripped, st1) else (sec, st1)
  | .numpy =>
    let (sec, st1) := nextL st
    if !_directive_regex sec then
      let (_, st2) := nextL st1
      (sec, st2)
    else (sec, st1)

/-- Embeds `GoogleDocstring._format_field` (this vendored copy drops descriptions,
so `separator` is always the empty string). -/
def _format_field (name type0 : Line) : List Line :=
  let field :=
    if !name.isEmpty then
      if !type0.isEmpty then
        if '\x60' ∈ type0 then "**".data ++ name ++ "** (".data ++ type0 ++ ")".data
        else "**".data ++ name ++ "** (*".data ++ type0 ++ "*)".data
      else "**".data ++ name ++ "**".data
    else if !type0.isEmpty then
      if '\x60' ∈ type0 then type0 else '*' :: (type0 ++ ['*'])
    else []
  [field]

/-- Embeds `GoogleDocstring._format_block` with the default padding (the only form
the embedded call sites use). -/
def _format_block (prfx : Line) (lines : List Line) : List Line :=
  if lines.isEmpty then [prfx]
  else
    let padding : Line := List.replicate prfx.length ' '
    lines.enum.map fun il =>
      if il.1 = 0 then pyRstrip (prfx ++ il.2)
      else if !il.2.isEmpty then padding ++ il.2
      else []

/-- Embeds `GoogleDocstring._format_fields`. -/
def _format_fields (fieldType : Line) (fields : List (Line × Line)) : List Line :=
  let ft : Line := ':' :: (pyStrip fieldType ++ [':'])
  let padding : Line := List.replicate ft.length ' '
  let multi := fields.length > 1
  let lines := fields.foldl
    (fun acc nt =>
      let field := _format_field nt.1 nt.2
      if multi then
        if !acc.isEmpty then acc ++ _format_block (padding ++ " * ".data) field
        else acc ++ _format_block (ft ++ " * ".data) field
      else acc ++ _format_block (ft ++ [' ']) field)
    []
  if !lines.isEmpty && lines.getLast? ≠ some [] then lines ++ [[]] else lines

/-- The reStructuredText lines `_parse_parameters_section` emits for a list
of consumed fields when `napoleon_use_param` is set: a `:param name:` line
for every field and a `:type name: t` line only for fields with a non-empty
type, followed by one blank line. -/
def param_field_lines (fields : List (Line × Line)) : List Line :=
  fields.flatMap
    (fun nt =>
      (":param ".data ++ nt.1 ++ [':']) ::
        (if !nt.2.isEmpty then [":type ".data ++ nt.1 ++ ": ".data ++ nt.2] else [])) ++
    [[]]

/-- Embeds `GoogleDocstring._parse_parameters_section`. -/
def _parse_parameters_section (sty : Sty) (st : NSt) : List Line × NSt :=
  let (fields, st1) := _consume_fields sty true false st
  (if napoleon_use_param then param_field_lines fields
   else _format_fields "Parameters".data fields, st1)

/-- Embeds `GoogleDocstring._parse_returns_section`. -/
def _parse_returns_section (sty : Sty) (st : NSt) : List Line × NSt :=
  let (fields, st1) := _consume_returns_section sty st
  let multi := fields.length > 1
  let useRtype := if multi then false else napoleon_use_rtype
  let lines := fields.foldl
    (fun acc nt =>
      let field := if useRtype then _format_field nt.1 [] else _format_field nt.1 nt.2
      if multi then
        if !acc.isEmpty then acc ++ _format_block "          * ".data field
        else acc ++ _format_block ":returns: * ".data field
      else
        let acc3 := acc ++ _format_block ":returns: ".data field
        if !nt.2.isEmpty && useRtype then acc3 ++ [":rtype: ".data ++ nt.2, []]
        else acc3)
    []
  (if !lines.isEmpty && lines.getLast? ≠ some [] then lines ++ [[]] else lines, st1)

/-- Embeds `GoogleDocstring._parse_yields_section`. -/
def _parse_yields_section (sty : Sty) (st : NSt) : List Line × NSt :=
  let (fields, st1) := _consume_returns_section sty st
  (_format_fields "Yields".data fields, st1)

/-- Embeds `GoogleDocstring._skip_section`. -/
def _skip_section (sty : Sty) (st : NSt) : List Line × NSt :=
  let (_, st1) := _consume_to_next_section sty st
  ([], st1)

/-- The main loop of `GoogleDocstring.parse` (fuelled; each iteration
consumes at least one line: the header/handler path consumes the header
line, the preamble path consumes at least one contiguous or empty line, and
the remaining path hits `_consume_to_next_section` with `_is_in_section`
false, which consumes at least one line while the iterator is nonempty). -/
def napParseLoop (sty : Sty) : Nat → NSt → List Line → List Line
  | 0, _, parsed => parsed
  | fuel + 1, st, parsed =>
    if !hasNextL st then parsed
    else if _is_section_header sty st then
      let (sec, st1) := _consume_section_header sty st
      let st2 := { st1 with inSec := true, secInd := _get_current_indent st1 0 }
      let (lines, st3) :=
        if _directive_regex sec then
          let (ls, s) := _consume_to_next_section sty st2
          (sec :: ls, s)
        else
          match handlerFor (lowerLine sec) with
          | .hparams => _parse_parameters_section sty st2
          | .hreturns => _parse_returns_section sty st2
          | .hyields => _parse_yields_section sty st2
          | .hskip => _skip_section sty st2
      let st4 := { st3 with inSec := false, secInd := 0 }
      napParseLoop sty fuel st4 (parsed ++ lines)
    else
      let (lines, st1) :=
        if parsed.isEmpty then
          let (a, s1) := _consume_contiguous sty st
          let (b, s2) := _consume_empty s1
          (a ++ b, s2)
        else _consume_to_next_section sty st
      napParseLoop sty fuel st1 (parsed ++ lines)

/-- Embeds `GoogleDocstring.parse` followed by `lines()`: the docstring is split
into lines, each line `rstrip`-ped by the `modify_iter` modifier, and the
parsed lines are accumulated starting from the leading empty lines. -/
def napoleonLines (sty : Sty) (doc : Line) : List Line :=
  let lns := (splitlinesPy doc).map pyRstrip
  let st0 : NSt := ⟨lns, false, 0⟩
  let (e, st1) := _consume_empty st0
  napParseLoop sty (st1.lns.length + 1) st1 e

/-- Embeds `str(GoogleDocstring(...))` / `str(NumpyDocstring(...))`:
`'\n'.join(self.lines())`. -/
def napoleonToRest (sty : Sty) (doc : Line) : Line := joinNL (napoleonLines sty doc)

/-! ## The docutils document tree (modelled from the spec)

`doc484.formats.publish_doctree` hands the reStructuredText produced by
`to_rest` to docutils and walks the resulting field nodes.  docutils is not
part of this repository; the definitions below are modelled from the
specification (section 4.4: the tree builder is a black box whose output is
a list of field nodes, each with a field-name, body paragraphs and optional
bullet-list items).  The line-numbering convention (`node.line` is the
1-based physical line at which the node's text begins, counted in the text
given to docutils) is pinned by the repository's own test suite
(`tests/test_doc484.py::test_basic`, `test_complex`, `test_numpydoc_yields`,
`test_numpydoc_tuple_result`). -/

/-- Modelled from the spec: a body paragraph of a field node, with its
`astext()` value and its 1-based source line. -/
structure Para where
  txt : Line
  ln : Nat
deriving DecidableEq, Repr

/-- Modelled from the spec: a field node, with the `astext()` of its
field-name node, its 1-based source line, its body paragraphs, and the
`astext()` values of its bullet-list items. -/
structure DocField where
  name : Line
  ln : Nat
  paras : List Para
  items : List Line
deriving DecidableEq, Repr

/-- Modelled from the spec: a field marker line `:name: rest` at indent 0 —
a leading colon, a non-empty name that does not start with whitespace and
contains no colon, a closing colon, and then end of line or whitespace. -/
def fieldMarker (l : Line) : Option (Line × Line) :=
  match l with
  | ':' :: rest =>
    let nm := rest.takeWhile (· ≠ ':')
    match rest.drop nm.length with
    | ':' :: after =>
      if !nm.isEmpty &&
         (match nm.head? with | some c => !isPySpace c | none => false) &&
         (match after.head? with | some c => isPySpace c | none => true)
      then some (nm, after) else none
    | _ => none
  | _ => none

/-- A line that continues the body of the current field: blank, or indented. -/
def contLine (l : Line) : Bool :=
  match l.head? with
  | none => true
  | some c => isPySpace c

/-- Is a line blank once trimmed? -/
def blankLine (l : Line) : Bool := (pyStrip l).isEmpty

/-- Split a field body into blank-separated groups (paragraph candidates):
the worker carries the current group in reverse. -/
def splitGroupsGo (cur : List (Nat × Line)) :
    List (Nat × Line) → List (List (Nat × Line))
  | [] => if cur.isEmpty then [] else [cur.reverse]
  | x :: rest =>
    if blankLine x.2 then
      if cur.isEmpty then splitGroupsGo [] rest
      else cur.reverse :: splitGroupsGo [] rest
    else splitGroupsGo (x :: cur) rest

/-- Split a field body into blank-separated groups (paragraph candidates). -/
def splitGroups (body : List (Nat × Line)) : List (List (Nat × Line)) :=
  splitGroupsGo [] body

/-- Does a group render as a bullet list (its first line starts `"* "`)? -/
def isBulletGroup (g : List (Nat × Line)) : Bool :=
  match g.head? with
  | some x => "* ".data.isPrefixOf (pyStrip x.2)
  | none => false

/-- Modelled from the spec: split a bullet group into its items; a line
starting `"* "` begins a new item, other lines continue the current item. -/
def splitItems (g : List (Nat × Line)) : List (Nat × Line) :=
  g.foldl
    (fun acc x =>
      let t := pyStrip x.2
      if "* ".data.isPrefixOf t then acc ++ [(x.1, t.drop 2)]
      else
        match acc.getLast? with
        | some last => acc.dropLast ++ [(last.1, last.2 ++ '\n' :: t)]
        | none => acc)
    []

/-- Modelled from the spec: `astext()` of inline-marked-up item text shaped
`**name** (*type*) -- description` — backslash escapes keep the escaped
character, emphasis/strong star markers disappear. -/
def starStrip : Line → Line
  | [] => []
  | '\\' :: c :: rest => c :: starStrip rest
  | '*' :: rest => starStrip rest
  | c :: rest => c :: starStrip rest

/-- Modelled from the spec: build a field node from its marker name, its
1-based line and its body lines.  Non-bullet groups become paragraphs whose
`astext()` is the newline-join of their trimmed lines and whose line is the
group's first line; bullet groups contribute their items. -/
def mkField (nm : Line) (ln : Nat) (body : List (Nat × Line)) : DocField :=
  let groups := splitGroups body
  let paras := groups.filterMap fun g =>
    if isBulletGroup g then none
    else
      match g with
      | [] => none
      | x :: _ =>
        match (g.map (fun y => pyStrip y.2)).filter (fun l => !l.isEmpty) with
        | [] => none
        | ls => some ⟨joinNL ls, x.1⟩
  let items := groups.flatMap fun g =>
    if isBulletGroup g then (splitItems g).map (fun x => starStrip x.2) else []
  ⟨nm, ln, paras, items⟩

/-- An open field while scanning: marker name, marker line number, and the
body lines collected so far (in reverse). -/
structure OpenField where
  nm : Line
  ln : Nat
  body : List (Nat × Line)

/-- Modelled from the spec: scan the document line by line for indent-0
field markers; each field's body is the rest of the marker line plus the
following blank or indented lines.  `n` is the 1-based number of the next
line; `cur` is the field currently being collected, if any. -/
def goFields (n : Nat) (cur : Option OpenField) :
    List Line → List DocField
  | [] =>
    match cur with
    | none => []
    | some c => [mkField c.nm c.ln c.body.reverse]
  | l :: rest =>
    match cur with
    | some c =>
      if contLine l then goFields (n + 1) (some ⟨c.nm, c.ln, (n, l) :: c.body⟩) rest
      else
        mkField c.nm c.ln c.body.reverse ::
          (match fieldMarker l with
           | some (nm2, b2) => goFields (n + 1) (some ⟨nm2, n, [(n, b2)]⟩) rest
           | none => goFields (n + 1) none rest)
    | none =>
      match fieldMarker l with
      | some (nm2, b2) => goFields (n + 1) (some ⟨nm2, n, [(n, b2)]⟩) rest
      | none => goFields (n + 1) none rest

/-- Modelled from the spec: `publish_doctree` followed by the field-node
traversal order — the list of field nodes of the document, with 1-based
line numbers.  Parse failures of the tree builder are reported through its
diagnostic channel and surface as the `SystemMessage` branch of
`RestBaseFormat.parse`, which this total model never needs to take. -/
def extractFields (doc : Line) : List DocField := goFields 1 none (splitNL doc)

/-! ## `doc484/formats.py` -/

def YIELDS_ERROR : String := "'Yields' is not supported. Use 'Returns' with Iterator[]"

def NAMED_ITEMS_ERROR : String := "Named results are not supported. Use Tuple[] or NamedTuple"

/-- Embeds `doc484.formats.Arg`: an extracted type annotation. -/
structure Arg where
  type : String
  line : Nat
deriving DecidableEq, Repr

/-- Embeds `doc484.formats._clean_type`: `s.strip().replace('\n', ' ')`. -/
def _clean_type (s : Line) : Line :=
  (pyStrip s).map fun c => if c = '\n' then ' ' else c

/-- The recognized parse options (`options.get('allow_named_results', True)`;
an absent options mapping behaves as the default `true`). -/
structure POptions where
  allowNamedResults : Bool := true
deriving DecidableEq

/-- The `for item in items` loop over `NAMED_RESULTS_REG` matches: collect
captured groups, stopping at the first item that does not match. -/
def collectNamedTypes : List Line → List Line
  | [] => []
  | t :: rest =>
    match NAMED_RESULTS_REG t with
    | some g => g :: collectNamedTypes rest
    | none => []

/-- What one iteration of the field loop of `RestBaseFormat.parse` does to
the accumulated state. -/
inductive FAct where
  | insertParam (name : String) (a : Arg)
  | setResult (a : Arg)
  | warn (msg : String) (ln : Nat)
  | noop

/-- The named-results branch of the field loop: collect the
`NAMED_RESULTS_REG` captures (stopping at the first failure); one capture
becomes the result type, several become a `Tuple[...]`, none leaves the
result unset. -/
def namedResultsAct (f : DocField) : FAct :=
  match collectNamedTypes f.items with
  | [] => .noop
  | [t] => .setResult ⟨String.mk t, f.ln⟩
  | t1 :: t2 :: ts =>
    .setResult
      ⟨String.mk ("Tuple[".data ++
         (((t1 :: t2 :: ts).intersperse ", ".data).flatten) ++ "]".data),
       f.ln⟩

/-- The `parts == ['returns']` branch of the field loop: bullet items are
either folded into a (tuple) result or produce the named-results warning,
depending on the option; a `returns` field without items does nothing. -/
def returnsAct (opts : POptions) (f : DocField) : FAct :=
  if !f.items.isEmpty then
    if opts.allowNamedResults then namedResultsAct f
    else .warn NAMED_ITEMS_ERROR f.ln
  else .noop

/-- The `len(parts) == 1` branch (other than `returns`): read the first
body paragraph; `rtype` sets the result, `Yields` warns, anything else is
ignored; a field without a body paragraph is skipped. -/
def singleTokenAct (p1 : Line) (f : DocField) : FAct :=
  match f.paras with
  | [] => .noop
  | p :: _ =>
    if p1 = "rtype".data then .setResult ⟨String.mk (_clean_type p.txt), p.ln⟩
    else if p1 = "Yields".data then .warn YIELDS_ERROR p.ln
    else .noop

/-- The `len(parts) == 2 and parts[0] == 'type'` branch: insert the cleaned
first body paragraph under the parameter name; a field without a body
paragraph is skipped. -/
def typeTokenAct (p2 : Line) (f : DocField) : FAct :=
  match f.paras with
  | [] => .noop
  | p :: _ => .insertParam (String.mk p2) ⟨String.mk (_clean_type p.txt), p.ln⟩

/-- Dispatch of the field loop on the whitespace-split field name. -/
def classifyParts (opts : POptions) (f : DocField) : List Line → FAct
  | [p1] =>
    if p1 = "returns".data then returnsAct opts f
    else singleTokenAct p1 f
  | [p1, p2] =>
    if p1 = "type".data then typeTokenAct p2 f
    else .noop
  | _ => .noop

/-- One iteration of the field loop of `RestBaseFormat.parse`, as a
function of the field node: split the field name on whitespace; a single
`returns` token with bullet items either synthesizes a (tuple) result type
or warns, depending on the allow-named-results option; a `type name` pair
with a body paragraph inserts a parameter; a single `rtype` token sets the
result; a single `Yields` token warns. -/
def classifyField (opts : POptions) (f : DocField) : FAct :=
  classifyParts opts f (splitWS (pyStrip f.name))

/-- Assignment into the `OrderedDict` `params`: an existing key keeps its
position and receives the new value, a new key is appended. -/
def odInsert (ps : List (String × Arg)) (k : String) (v : Arg) :
    List (String × Arg) :=
  if ps.any (fun p => p.1 = k) then
    ps.map fun p => if p.1 = k then (k, v) else p
  else ps ++ [(k, v)]

/-- The parse result together with the diagnostics the format logger
received: `params`, `result`, and the `(message, line)` warning calls (the
logged line is the node line plus the format's starting line). -/
structure PDoc where
  params : List (String × Arg)
  result : Option Arg
  warns : List (String × Nat)
deriving DecidableEq, Repr

/-- Apply one field action to the accumulated state. -/
def applyFAct (selfLine : Nat) (st : PDoc) : FAct → PDoc
  | .insertParam n a => { st with params := odInsert st.params n a }
  | .setResult a => { st with result := some a }
  | .warn m ln => { st with warns := st.warns ++ [(m, ln + selfLine)] }
  | .noop => st

/-- The field loop of `RestBaseFormat.parse` over the document's field
nodes. -/
def parseFields (opts : POptions) (selfLine : Nat) (fields : List DocField) :
    PDoc :=
  fields.foldl (fun st f => applyFAct selfLine st (classifyField opts f))
    ⟨[], none, []⟩

instance {ε α : Type} [DecidableEq ε] [DecidableEq α] :
    DecidableEq (Except ε α) := fun a b =>
  match a, b with
  | .ok x, .ok y =>
    if h : x = y then isTrue (by rw [h]) else isFalse (by intro hc; cases hc; exact h rfl)
  | .error x, .error y =>
    if h : x = y then isTrue (by rw [h]) else isFalse (by intro hc; cases hc; exact h rfl)
  | .ok _, .error _ => isFalse (by intro hc; cases hc)
  | .error _, .ok _ => isFalse (by intro hc; cases hc)

/-- The docstring formats, in the priority order of `doc484.formats.formats`. -/
inductive FormatKind where
  | numpy
  | google
  | rest
deriving DecidableEq, Repr

/-- The `sections` patterns of each format class.  Every pattern has the
shape `(\n|^)L` for a literal `L`, so `re.search` succeeds exactly when `L`
is a prefix of the text or `'\n' ++ L` occurs inside it. -/
def sectionsPats (k : FormatKind) : List Line :=
  match k with
  | .rest => [":param ", ":rtype:", ":Yields:"].map String.data
  | .numpy =>
    ["Parameters\n----------\n", "Returns\n-------\n", "Yields\n------\n"].map
      String.data
  | .google => ["Args:\n", "Returns:\n", "Yields:\n"].map String.data

/-- Embeds `re.search` of one `(\n|^)L` pattern. -/
def patOccurs (pat d : Line) : Bool :=
  pat.isPrefixOf d || containsSeq ('\n' :: pat) d

/-- Embeds `DocstringFormat.matches`: any of the format's patterns occurs. -/
def formatMatches (k : FormatKind) (d : Line) : Bool :=
  (sectionsPats k).any fun p => patOccurs p d

/-- Embeds `doc484.formats.guess_format`: `inspect.cleandoc` the docstring, return
the first format in `[NumpyFormat, GoogleFormat, RestFormat]` whose patterns
match, defaulting to `RestFormat`. -/
def guess_format (s : Line) : FormatKind :=
  let d := cleandocL s
  if formatMatches .numpy d then .numpy
  else if formatMatches .google d then .google
  else .rest

/-- Embeds `to_rest` of each format class: `RestFormat` cleans the docstring;
the NumPy and Google formats run the napoleon converter on the cleaned
docstring. -/
def to_rest (k : FormatKind) (s : Line) : Line :=
  match k with
  | .rest => _cleandoc s
  | .numpy => napoleonToRest .numpy (_cleandoc s)
  | .google => napoleonToRest .google (_cleandoc s)

/-- Embeds `RestBaseFormat.parse` for a given format class: convert to
reStructuredText, build the document tree, and run the field loop. -/
def formatParse (k : FormatKind) (selfLine : Nat) (opts : POptions)
    (s : Line) : PDoc :=
  parseFields opts selfLine (extractFields (to_rest k s))

/-- Embeds `doc484.formats.format_map`: format classes by name. -/
def format_map (name : String) : Option FormatKind :=
  if name = "numpy" then some .numpy
  else if name = "google" then some .google
  else if name = "rest" then some .rest
  else none

/-- Embeds `doc484.formats.parse_docstring`: with `default_format='auto'` the
format is guessed; otherwise `format_map[default_format]` is looked up, and
a name missing from the map raises `KeyError` (the `.error` branch). -/
def parse_docstring (s : String) (line : Nat) (defaultFormat : String)
    (opts : POptions) : Except String PDoc :=
  if defaultFormat = "auto" then
    .ok (formatParse (guess_format s.data) line opts s.data)
  else
    match format_map defaultFormat with
    | some k => .ok (formatParse k line opts s.data)
    | none => .error ("KeyError: " ++ defaultFormat)

/-! ## General lemmas about the embedded primitives -/

theorem firstSome_some {l : List α} {f : α → Option β} {b : β}
    (h : firstSome l f = some b) : ∃ a ∈ l, f a = some b := by
  induction l with
  | nil => simp [firstSome] at h
  | cons x rest ih =>
    rw [firstSome] at h
    cases hx : f x with
    | some v =>
      rw [hx] at h
      have h2 : some v = some b := h
      exact ⟨x, List.mem_cons_self .., by rw [hx]; exact h2⟩
    | none =>
      rw [hx] at h
      have h2 : firstSome rest f = some b := h
      obtain ⟨a, ha, hfa⟩ := ih h2
      exact ⟨a, List.mem_cons_of_mem _ ha, hfa⟩

theorem head?_dropWhile_not (p : α → Bool) :
    ∀ (l : List α) {c}, (l.dropWhile p).head? = some c → p c = false := by
  intro l
  induction l with
  | nil => intro c h; simp [List.dropWhile] at h
  | cons x xs ih =>
    intro c h
    by_cases hx : p x
    · rw [List.dropWhile_cons_of_pos hx] at h
      exact ih h
    · rw [List.dropWhile_cons_of_neg hx] at h
      simp at h
      rw [← h]
      simpa using hx

theorem all_of_dropWhile_eq_nil (p : α → Bool) :
    ∀ {l : List α}, l.dropWhile p = [] → l.all p := by
  intro l
  induction l with
  | nil => intro _; simp
  | cons x xs ih =>
    intro h
    by_cases hx : p x
    · rw [List.dropWhile_cons_of_pos hx] at h
      simp [hx, ih h]
    · rw [List.dropWhile_cons_of_neg hx] at h
      simp at h

/-- The last character of a non-empty `pyRstrip` result is not whitespace. -/
theorem pyRstrip_getLast_not_space {l : Line} {c : Char}
    (h : (pyRstrip l).getLast? = some c) : isPySpace c = false := by
  unfold pyRstrip at h
  rw [List.getLast?_reverse] at h
  exact head?_dropWhile_not _ _ h

/-- If `pyStrip l` is empty, the whole line is whitespace. -/
theorem all_space_of_pyStrip_eq_nil {l : Line} (h : pyStrip l = []) :
    l.all isPySpace = true := by
  unfold pyStrip pyRstrip at h
  have h2 : (pyLstrip l).reverse.dropWhile isPySpace = [] := by
    cases hx : (pyLstrip l).reverse.dropWhile isPySpace with
    | nil => rfl
    | cons a b => rw [hx] at h; simp at h
  have h3 : (pyLstrip l).reverse.all isPySpace := all_of_dropWhile_eq_nil _ h2
  rw [List.all_eq_true] at h3 ⊢
  intro x hx
  have hx2 : x ∈ l.takeWhile isPySpace ++ l.dropWhile isPySpace := by
    rw [List.takeWhile_append_dropWhile]; exact hx
  rcases List.mem_append.mp hx2 with hm | hm
  · exact List.mem_takeWhile_imp hm
  · refine h3 x ?_
    rw [List.mem_reverse]
    exact hm

/-- A non-empty strip result contains a non-whitespace character. -/
theorem exists_not_space_of_pyStrip_ne {l : Line} (h : pyStrip l ≠ []) :
    ∃ c ∈ pyStrip l, isPySpace c = false := by
  have hlast : (pyStrip l).getLast? = some ((pyStrip l).getLast h) :=
    List.getLast?_eq_getLast _ h
  refine ⟨(pyStrip l).getLast h, List.getLast_mem h, ?_⟩
  exact pyRstrip_getLast_not_space (l := pyLstrip l) hlast

/-- A character of the first line is a character of the newline join. -/
theorem mem_joinNL_head {x : Line} {t : List Line} {c : Char} (hc : c ∈ x) :
    c ∈ joinNL (x :: t) := by
  cases t with
  | nil => simpa [joinNL, List.intersperse] using hc
  | cons y t' =>
    have he : joinNL (x :: y :: t') =
        x ++ (['\n'] :: List.intersperse ['\n'] (y :: t')).flatten := rfl
    rw [he]
    exact List.mem_append_left _ hc

/-- If the join of lines contains no non-space character, neither does its
first line: contrapositive used for paragraph non-emptiness. -/
theorem pyStrip_joinNL_ne_nil {x : Line} {t : List Line}
    (hx : ∃ c ∈ x, isPySpace c = false) : pyStrip (joinNL (x :: t)) ≠ [] := by
  intro hnil
  obtain ⟨c, hc, hcs⟩ := hx
  have hall := all_space_of_pyStrip_eq_nil hnil
  rw [List.all_eq_true] at hall
  have := hall c (mem_joinNL_head hc)
  rw [hcs] at this
  exact Bool.false_ne_true this

/-- Embeds `_clean_type` never returns a newline character. -/
theorem clean_type_no_newline {t : Line} : '\n' ∉ _clean_type t := by
  unfold _clean_type
  intro hmem
  rw [List.mem_map] at hmem
  obtain ⟨c, _, hc⟩ := hmem
  by_cases h : c = '\n'
  · simp [h] at hc
  · simp [h] at hc

/-- Embeds `_clean_type` is non-empty whenever the stripped input is. -/
theorem clean_type_ne_nil {t : Line} (h : pyStrip t ≠ []) : _clean_type t ≠ [] := by
  unfold _clean_type
  simpa using h

/-- A capture of `NAMED_RESULTS_REG` contains no newline (the dot of the
pattern does not match newlines). -/
theorem named_capture_no_newline {t g : Line}
    (h : NAMED_RESULTS_REG t = some g) : '\n' ∉ g := by
  unfold NAMED_RESULTS_REG at h
  cases t with
  | nil => simp at h
  | cons c rest =>
    dsimp only at h
    split at h
    · split at h
      · exact absurd h (by simp)
      · split at h
        · obtain ⟨q, _, hq⟩ := firstSome_some h
          split at hq
          · next hcond =>
            simp only [Option.some.injEq] at hq
            subst hq
            simp only [Bool.and_eq_true] at hcond
            have hall := hcond.2
            rw [List.all_eq_true] at hall
            intro hmem
            have := hall _ hmem
            simp at this
          · exact absurd hq (by simp)
        · exact absurd h (by simp)
    · exact absurd h (by simp)

/-- Members of `collectNamedTypes` are captures of `NAMED_RESULTS_REG`. -/
theorem collectNamedTypes_mem {items : List Line} {g : Line}
    (h : g ∈ collectNamedTypes items) :
    ∃ t, NAMED_RESULTS_REG t = some g := by
  induction items with
  | nil => simp [collectNamedTypes] at h
  | cons t rest ih =>
    rw [collectNamedTypes] at h
    cases hr : NAMED_RESULTS_REG t with
    | some g2 =>
      rw [hr] at h
      rcases List.mem_cons.mp h with hg | hg
      · exact ⟨t, by rw [hr, hg]⟩
      · exact ih hg
    | none => rw [hr] at h; simp at h

/-- Members of an `intersperse` are the separator or members of the list. -/
theorem mem_intersperse' {sep : Line} :
    ∀ {ts : List Line} {x}, x ∈ ts.intersperse sep → x = sep ∨ x ∈ ts := by
  intro ts
  induction ts with
  | nil => intro x h; simp [List.intersperse] at h
  | cons a t ih =>
    intro x h
    cases t with
    | nil =>
      simp [List.intersperse] at h
      simp [h]
    | cons b t' =>
      have he : List.intersperse sep (a :: b :: t') =
          a :: sep :: List.intersperse sep (b :: t') := rfl
      rw [he] at h
      rcases List.mem_cons.mp h with h1 | h1
      · right; simp [h1]
      · rcases List.mem_cons.mp h1 with h2 | h2
        · left; exact h2
        · rcases ih h2 with h3 | h3
          · left; exact h3
          · right; exact List.mem_cons_of_mem _ h3

/-! ## Ordered-map lemmas for the `params` dictionary -/

/-- Lookup in the params association list (`OrderedDict.__getitem__`). -/
def lookupPD (ps : List (String × Arg)) (k : String) : Option Arg :=
  (ps.find? (fun p => p.1 = k)).map Prod.snd

/-- The key-deduplication step: keep the key list, appending unseen keys. -/
def stepK (ks : List String) (k : String) : List String :=
  if k ∈ ks then ks else ks ++ [k]

/-- Keys in first-occurrence order (the specification's ordering policy). -/
def firstOccs (ks : List String) : List String := ks.foldl stepK []

/-- The last value a key is mapped to in a raw pair sequence (the
specification's last-value-wins policy). -/
def lastVal (l : List (String × Arg)) (k : String) : Option Arg :=
  (l.reverse.find? (fun p => p.1 = k)).map Prod.snd

/-- Folding `OrderedDict` assignment over a raw pair sequence. -/
def odFold (ps : List (String × Arg)) (l : List (String × Arg)) :
    List (String × Arg) :=
  l.foldl (fun acc p => odInsert acc p.1 p.2) ps

theorem any_key_iff (ps : List (String × Arg)) (k : String) :
    ps.any (fun p => p.1 = k) = true ↔ k ∈ ps.map Prod.fst := by
  rw [List.any_eq_true]
  simp [List.mem_map]

theorem map_fst_odInsert (ps : List (String × Arg)) (k : String) (v : Arg) :
    (odInsert ps k v).map Prod.fst =
      if k ∈ ps.map Prod.fst then ps.map Prod.fst else ps.map Prod.fst ++ [k] := by
  unfold odInsert
  by_cases h : ps.any (fun p => p.1 = k) = true
  · rw [if_pos h, if_pos ((any_key_iff ps k).mp h)]
    rw [List.map_map]
    refine List.map_congr_left ?_
    intro p _
    by_cases hp : p.1 = k
    · simp [hp]
    · simp [hp]
  · rw [if_neg h, if_neg (fun hm => h ((any_key_iff ps k).mpr hm))]
    simp

theorem mem_odInsert {ps : List (String × Arg)} {k : String} {v : Arg} {x}
    (hx : x ∈ odInsert ps k v) : x ∈ ps ∨ x = (k, v) := by
  unfold odInsert at hx
  by_cases h : ps.any (fun p => p.1 = k) = true
  · rw [if_pos h] at hx
    rw [List.mem_map] at hx
    obtain ⟨p, hp, he⟩ := hx
    by_cases hpk : p.1 = k
    · right; rw [← he]; simp [hpk]
    · left; rw [← he]; simpa [hpk] using hp
  · rw [if_neg h] at hx
    rcases List.mem_append.mp hx with hm | hm
    · left; exact hm
    · right; simpa using hm

theorem nodup_keys_odInsert {ps : List (String × Arg)} {k : String} {v : Arg}
    (h : (ps.map Prod.fst).Nodup) : ((odInsert ps k v).map Prod.fst).Nodup := by
  rw [map_fst_odInsert]
  by_cases hm : k ∈ ps.map Prod.fst
  · rw [if_pos hm]; exact h
  · rw [if_neg hm]
    rw [List.nodup_append]
    refine ⟨h, List.nodup_singleton k, ?_⟩
    intro a ha hb
    simp at hb
    subst hb
    exact hm ha

theorem lookup_cons (x : String × Arg) (l : List (String × Arg)) (k : String) :
    lookupPD (x :: l) k = if x.1 = k then some x.2 else lookupPD l k := by
  unfold lookupPD
  by_cases h : x.1 = k
  · rw [List.find?_cons_of_pos _ (by simpa using h), if_pos h]
    rfl
  · rw [List.find?_cons_of_neg _ (by simpa using h), if_neg h]

theorem lookup_map_replace (n : String) (v : Arg) (k : String) :
    ∀ ps : List (String × Arg),
      lookupPD (ps.map fun p => if p.1 = n then (n, v) else p) k =
        if k = n then (lookupPD ps n).map (fun _ => v) else lookupPD ps k := by
  intro ps
  induction ps with
  | nil => by_cases h : k = n <;> simp [lookupPD, h]
  | cons p t ih =>
    rw [List.map_cons]
    by_cases hpn : p.1 = n
    · rw [if_pos hpn, lookup_cons]
      by_cases hkn : k = n
      · rw [if_pos (by simp [hkn]), if_pos hkn, lookup_cons, if_pos hpn]
        rfl
      · rw [if_neg (by simp; intro he; exact hkn he.symm), ih,
          if_neg hkn, if_neg hkn, lookup_cons,
          if_neg (by rw [hpn]; intro he; exact hkn he.symm)]
    · rw [if_neg hpn, lookup_cons]
      by_cases hpk : p.1 = k
      · rw [if_pos hpk]
        have hkn : ¬ k = n := by rw [← hpk]; exact hpn
        rw [if_neg hkn, lookup_cons, if_pos hpk]
      · rw [if_neg hpk, ih]
        by_cases hkn : k = n
        · rw [if_pos hkn, if_pos hkn, lookup_cons, if_neg hpn]
        · rw [if_neg hkn, if_neg hkn, lookup_cons, if_neg hpk]

theorem lookup_odInsert (ps : List (String × Arg)) (k n : String) (v : Arg) :
    lookupPD (odInsert ps n v) k = if k = n then some v else lookupPD ps k := by
  unfold odInsert
  by_cases h : ps.any (fun p => p.1 = n) = true
  · rw [if_pos h, lookup_map_replace]
    by_cases hkn : k = n
    · rw [if_pos hkn, if_pos hkn]
      rw [List.any_eq_true] at h
      obtain ⟨p, hp, hpe⟩ := h
      have hs : ∃ x ∈ ps, (fun q => decide (q.1 = n)) x = true := ⟨p, hp, hpe⟩
      rw [← List.find?_isSome] at hs
      unfold lookupPD
      cases hfind : ps.find? (fun q => q.1 = n) with
      | none => rw [hfind] at hs; simp at hs
      | some a => rfl
    · rw [if_neg hkn, if_neg hkn]
  · rw [if_neg h]
    by_cases hkn : k = n
    · rw [if_pos hkn]
      subst hkn
      unfold lookupPD
      rw [List.find?_append]
      have hn : ps.find? (fun p => p.1 = k) = none := by
        rw [List.find?_eq_none]
        intro p hp
        simp only [decide_eq_true_eq]
        intro he
        rw [List.any_eq_true] at h
        exact h ⟨p, hp, by simpa using he⟩
      rw [hn]
      simp [List.find?]
    · rw [if_neg hkn]
      unfold lookupPD
      rw [List.find?_append]
      have h2 : List.find? (fun p => p.1 = k) [(n, v)] = none := by
        rw [List.find?_cons_of_neg _ (by simp; intro he; exact hkn he.symm)]
        rfl
      rw [h2]
      simp

theorem keys_odFold (l : List (String × Arg)) :
    ∀ ps, (odFold ps l).map Prod.fst =
      (l.map Prod.fst).foldl stepK (ps.map Prod.fst) := by
  induction l with
  | nil => intro ps; rfl
  | cons x t ih =>
    intro ps
    rw [odFold, List.foldl_cons, List.map_cons, List.foldl_cons]
    rw [show (List.foldl (fun acc p => odInsert acc p.1 p.2) (odInsert ps x.1 x.2) t) =
      odFold (odInsert ps x.1 x.2) t from rfl]
    rw [ih]
    rw [map_fst_odInsert]
    rfl

theorem nodup_keys_odFold (l : List (String × Arg)) :
    ∀ ps, (ps.map Prod.fst).Nodup → ((odFold ps l).map Prod.fst).Nodup := by
  induction l with
  | nil => intro ps h; exact h
  | cons x t ih =>
    intro ps h
    exact ih (odInsert ps x.1 x.2) (nodup_keys_odInsert h)

theorem lookup_odFold (l : List (String × Arg)) :
    ∀ ps k, lookupPD (odFold ps l) k = (lastVal l k).or (lookupPD ps k) := by
  induction l with
  | nil => intro ps k; simp [odFold, lastVal]
  | cons x t ih =>
    intro ps k
    rw [odFold, List.foldl_cons]
    rw [show (List.foldl (fun acc p => odInsert acc p.1 p.2) (odInsert ps x.1 x.2) t) =
      odFold (odInsert ps x.1 x.2) t from rfl]
    rw [ih, lookup_odInsert]
    unfold lastVal
    rw [List.reverse_cons, List.find?_append]
    cases hf : (t.reverse.find? fun p => p.1 = k) with
    | some p => simp [Option.or]
    | none =>
      simp only [Option.map_none, Option.none_or]
      by_cases hkn : k = x.1
      · rw [List.find?_cons_of_pos _ (by simpa using hkn.symm)]
        rw [if_pos hkn]
        simp [Option.or]
      · rw [List.find?_cons_of_neg _ (by simp; intro he; exact hkn he.symm)]
        rw [if_neg hkn]
        simp [List.find?]

/-! ## Structure of the field loop -/

/-- The raw `(name, Arg)` pairs the field loop would insert, in document
order: one pair per field classified as a parameter type field. -/
def rawTypePairs (opts : POptions) (fields : List DocField) :
    List (String × Arg) :=
  fields.filterMap fun f =>
    match classifyField opts f with
    | .insertParam n a => some (n, a)
    | _ => none

/-- The `params` component of the field loop is the ordered-dict fold of the
raw type pairs. -/
theorem params_parseFields_aux (opts : POptions) (selfLine : Nat) :
    ∀ (fields : List DocField) (st : PDoc),
      (fields.foldl (fun st f => applyFAct selfLine st (classifyField opts f))
          st).params = odFold st.params (rawTypePairs opts fields) := by
  intro fields
  induction fields with
  | nil => intro st; rfl
  | cons f t ih =>
    intro st
    rw [List.foldl_cons, ih]
    simp only [rawTypePairs]
    rw [List.filterMap_cons]
    cases hc : classifyField opts f <;> rfl

theorem params_parseFields (opts : POptions) (selfLine : Nat)
    (fields : List DocField) :
    (parseFields opts selfLine fields).params =
      odFold [] (rawTypePairs opts fields) :=
  params_parseFields_aux opts selfLine fields ⟨[], none, []⟩

/-- Membership in an ordered-dict fold comes from the seed or the raw list. -/
theorem mem_odFold {x : String × Arg} :
    ∀ (l ps : List (String × Arg)), x ∈ odFold ps l → x ∈ ps ∨ x ∈ l := by
  intro l
  induction l with
  | nil => intro ps h; exact Or.inl h
  | cons y t ih =>
    intro ps h
    rw [odFold, List.foldl_cons] at h
    rcases ih (odInsert ps y.1 y.2) h with hm | hm
    · rcases mem_odInsert hm with hh | hh
      · exact Or.inl hh
      · right
        rw [hh]
        exact List.mem_cons_self ..
    · right
      exact List.mem_cons_of_mem _ hm

/-- An `insertParam` action records a `type name` field with a body
paragraph, and the inserted argument is the cleaned first paragraph. -/
theorem classify_insertParam_shape {opts : POptions} {f : DocField}
    {key : String} {a : Arg}
    (h : classifyField opts f = .insertParam key a) :
    splitWS (pyStrip f.name) = ["type".data, key.data] ∧
      ∃ p, f.paras.head? = some p ∧
        a = ⟨String.mk (_clean_type p.txt), p.ln⟩ := by
  unfold classifyField at h
  cases hparts : splitWS (pyStrip f.name) with
  | nil => rw [hparts] at h; simp [classifyParts] at h
  | cons p1 rest =>
    cases rest with
    | nil =>
      rw [hparts] at h
      rw [classifyParts] at h
      by_cases h1 : p1 = "returns".data
      · rw [if_pos h1] at h
        unfold returnsAct at h
        by_cases h2 : (!f.items.isEmpty) = true
        · rw [if_pos h2] at h
          by_cases h3 : opts.allowNamedResults = true
          · rw [if_pos h3] at h
            unfold namedResultsAct at h
            cases hct : collectNamedTypes f.items with
            | nil => rw [hct] at h; simp at h
            | cons t ts =>
              cases ts with
              | nil => rw [hct] at h; simp at h
              | cons t2 ts2 => rw [hct] at h; simp at h
          · rw [if_neg h3] at h; simp at h
        · rw [if_neg h2] at h; simp at h
      · rw [if_neg h1] at h
        unfold singleTokenAct at h
        cases hps : f.paras with
        | nil => rw [hps] at h; simp at h
        | cons p prest =>
          rw [hps] at h
          dsimp only at h
          by_cases h4 : p1 = "rtype".data
          · rw [if_pos h4] at h; simp at h
          · rw [if_neg h4] at h
            by_cases h5 : p1 = "Yields".data
            · rw [if_pos h5] at h; simp at h
            · rw [if_neg h5] at h; simp at h
    | cons p2 rest2 =>
      cases rest2 with
      | nil =>
        rw [hparts] at h
        rw [classifyParts] at h
        by_cases h1 : p1 = "type".data
        · rw [if_pos h1] at h
          unfold typeTokenAct at h
          cases hps : f.paras with
          | nil => rw [hps] at h; simp at h
          | cons p prest =>
            rw [hps] at h
            dsimp only at h
            simp only [FAct.insertParam.injEq] at h
            refine ⟨?_, p, rfl, h.2.symm⟩
            rw [h1, ← h.1]
        · rw [if_neg h1] at h; simp at h
      | cons p3 rest3 => rw [hparts] at h; simp [classifyParts] at h

/-- A `setResult` action yields either the cleaned first paragraph (an
`rtype` field) or a type synthesized from `NAMED_RESULTS_REG` captures (a
named-results `returns` field); in both cases the type contains no
newline. -/
theorem classify_setResult_noNL {opts : POptions} {f : DocField} {a : Arg}
    (h : classifyField opts f = .setResult a) : '\n' ∉ a.type.data := by
  unfold classifyField at h
  cases hparts : splitWS (pyStrip f.name) with
  | nil => rw [hparts] at h; simp [classifyParts] at h
  | cons p1 rest =>
    cases rest with
    | nil =>
      rw [hparts] at h
      rw [classifyParts] at h
      by_cases h1 : p1 = "returns".data
      · rw [if_pos h1] at h
        unfold returnsAct at h
        by_cases h2 : (!f.items.isEmpty) = true
        · rw [if_pos h2] at h
          by_cases h3 : opts.allowNamedResults = true
          · rw [if_pos h3] at h
            unfold namedResultsAct at h
            cases hct : collectNamedTypes f.items with
            | nil => rw [hct] at h; simp at h
            | cons t ts =>
              cases ts with
              | nil =>
                rw [hct] at h
                dsimp only at h
                simp only [FAct.setResult.injEq] at h
                rw [← h]
                intro hmem
                have ht : t ∈ collectNamedTypes f.items := by
                  rw [hct]; exact List.mem_cons_self ..
                obtain ⟨u, hu⟩ := collectNamedTypes_mem ht
                exact named_capture_no_newline hu hmem
              | cons t2 ts2 =>
                rw [hct] at h
                dsimp only at h
                simp only [FAct.setResult.injEq] at h
                rw [← h]
                show '\n' ∉ ("Tuple[".data ++
                  ((t :: t2 :: ts2).intersperse ", ".data).flatten ++ "]".data)
                intro hmem
                rcases List.mem_append.mp hmem with hm | hm
                · rcases List.mem_append.mp hm with hm2 | hm2
                  · simp at hm2
                  · rw [List.mem_flatten] at hm2
                    obtain ⟨l, hl, hcl⟩ := hm2
                    rcases mem_intersperse' hl with hsep | hml
                    · rw [hsep] at hcl; simp at hcl
                    · have hmem2 : l ∈ collectNamedTypes f.items := by
                        rw [hct]; exact hml
                      obtain ⟨u, hu⟩ := collectNamedTypes_mem hmem2
                      exact named_capture_no_newline hu hcl
                · simp at hm
          · rw [if_neg h3] at h; simp at h
        · rw [if_neg h2] at h; simp at h
      · rw [if_neg h1] at h
        unfold singleTokenAct at h
        cases hps : f.paras with
        | nil => rw [hps] at h; simp at h
        | cons p prest =>
          rw [hps] at h
          dsimp only at h
          by_cases h4 : p1 = "rtype".data
          · rw [if_pos h4] at h
            simp only [FAct.setResult.injEq] at h
            rw [← h]
            exact clean_type_no_newline
          · rw [if_neg h4] at h
            by_cases h5 : p1 = "Yields".data
            · rw [if_pos h5] at h; simp at h
            · rw [if_neg h5] at h; simp at h
    | cons p2 rest2 =>
      cases rest2 with
      | nil =>
        rw [hparts] at h
        rw [classifyParts] at h
        by_cases h1 : p1 = "type".data
        · rw [if_pos h1] at h
          unfold typeTokenAct at h
          cases hps : f.paras with
          | nil => rw [hps] at h; simp at h
          | cons p prest => rw [hps] at h; simp at h
        · rw [if_neg h1] at h; simp at h
      | cons p3 rest3 => rw [hparts] at h; simp [classifyParts] at h

/-! ## Paragraph well-formedness through the docutils model -/

/-- Every paragraph a field node carries has non-blank stripped text: its
`astext()` is the newline-join of the non-blank trimmed body lines. -/
theorem mkField_paras_good {nm : Line} {ln : Nat} {body : List (Nat × Line)}
    {p : Para} (hp : p ∈ (mkField nm ln body).paras) : pyStrip p.txt ≠ [] := by
  unfold mkField at hp
  rw [List.mem_filterMap] at hp
  obtain ⟨g, hg, hfg⟩ := hp
  by_cases hb : isBulletGroup g = true
  · rw [if_pos hb] at hfg; simp at hfg
  · rw [if_neg hb] at hfg
    cases g with
    | nil => simp at hfg
    | cons x gt =>
      cases hls : ((x :: gt).map (fun y => pyStrip y.2)).filter
          (fun l => !l.isEmpty) with
      | nil => rw [hls] at hfg; simp at hfg
      | cons z zs =>
        rw [hls] at hfg
        dsimp only at hfg
        simp only [Option.some.injEq] at hfg
        have hzmem : z ∈ ((x :: gt).map (fun y => pyStrip y.2)).filter
            (fun l => !l.isEmpty) := by
          rw [hls]; exact List.mem_cons_self ..
        have hz1 : z ∈ (x :: gt).map (fun y => pyStrip y.2) :=
          (List.mem_filter.mp hzmem).1
        have hz2 : (!z.isEmpty) = true := (List.mem_filter.mp hzmem).2
        obtain ⟨y, _, hyz⟩ := List.mem_map.mp hz1
        have hzne : z ≠ [] := by simpa using hz2
        have hex : ∃ c ∈ z, isPySpace c = false := by
          rw [← hyz]
          exact exists_not_space_of_pyStrip_ne (by rw [hyz]; exact hzne)
        rw [← hfg]
        exact pyStrip_joinNL_ne_nil hex

theorem goFields_paras_good :
    ∀ (ls : List Line) (n : Nat) (cur : Option OpenField) (f : DocField),
      f ∈ goFields n cur ls → ∀ p ∈ f.paras, pyStrip p.txt ≠ [] := by
  intro ls
  induction ls with
  | nil =>
    intro n cur f hf p hp
    cases cur with
    | none => simp [goFields] at hf
    | some c =>
      simp [goFields] at hf
      rw [hf] at hp
      exact mkField_paras_good hp
  | cons l rest ih =>
    intro n cur f hf p hp
    rw [goFields.eq_def] at hf
    cases cur with
    | some c =>
      dsimp only at hf
      by_cases hcont : contLine l = true
      · rw [if_pos hcont] at hf
        exact ih _ _ f hf p hp
      · rw [if_neg hcont] at hf
        rcases List.mem_cons.mp hf with hf1 | hf1
        · rw [hf1] at hp
          exact mkField_paras_good hp
        · cases hm : fieldMarker l with
          | some nb =>
            rw [hm] at hf1
            exact ih _ _ f hf1 p hp
          | none =>
            rw [hm] at hf1
            exact ih _ _ f hf1 p hp
    | none =>
      dsimp only at hf
      cases hm : fieldMarker l with
      | some nb =>
        rw [hm] at hf
        exact ih _ _ f hf p hp
      | none =>
        rw [hm] at hf
        exact ih _ _ f hf p hp

/-- Paragraph invariant of the docutils model. -/
theorem extractFields_paras_good {doc : Line} {f : DocField}
    (hf : f ∈ extractFields doc) : ∀ p ∈ f.paras, pyStrip p.txt ≠ [] :=
  goFields_paras_good _ 1 none f hf

/-- Every parameter the field loop returns has a non-empty, newline-free
type string, provided the field paragraphs are well-formed. -/
theorem parseFields_params_good {opts : POptions} {sl : Nat}
    {fields : List DocField}
    (hfields : ∀ f ∈ fields, ∀ p ∈ f.paras, pyStrip p.txt ≠ []) :
    ∀ x ∈ (parseFields opts sl fields).params,
      x.2.type ≠ "" ∧ '\n' ∉ x.2.type.data := by
  intro x hx
  rw [params_parseFields] at hx
  rcases mem_odFold _ _ hx with hm | hm
  · simp at hm
  · rw [rawTypePairs, List.mem_filterMap] at hm
    obtain ⟨f, hfmem, hcl⟩ := hm
    cases hc : classifyField opts f with
    | insertParam n a =>
      rw [hc] at hcl
      dsimp only at hcl
      simp only [Option.some.injEq] at hcl
      obtain ⟨-, p, hhead, ha⟩ := classify_insertParam_shape hc
      have hpmem : p ∈ f.paras := by
        cases hps : f.paras with
        | nil => rw [hps] at hhead; simp at hhead
        | cons q qs =>
          rw [hps] at hhead
          simp at hhead
          rw [← hhead]
          exact List.mem_cons_self ..
      have hgood := hfields f hfmem p hpmem
      have hx2 : x.2 = a := by rw [← hcl]
      rw [hx2, ha]
      constructor
      · intro hemp
        have : _clean_type p.txt = [] := by
          have := congrArg String.data hemp
          simpa using this
        exact clean_type_ne_nil hgood this
      · intro hmem2
        exact clean_type_no_newline (t := p.txt) (by simpa using hmem2)
    | setResult a => rw [hc] at hcl; simp at hcl
    | warn m ln => rw [hc] at hcl; simp at hcl
    | noop => rw [hc] at hcl; simp at hcl

theorem parseFields_result_noNL_aux (opts : POptions) (sl : Nat) :
    ∀ (fields : List DocField) (st : PDoc),
      (∀ a, st.result = some a → '\n' ∉ a.type.data) →
      ∀ a, (fields.foldl (fun st f => applyFAct sl st (classifyField opts f))
          st).result = some a → '\n' ∉ a.type.data := by
  intro fields
  induction fields with
  | nil => intro st hst a ha; exact hst a ha
  | cons f t ih =>
    intro st hst a ha
    rw [List.foldl_cons] at ha
    refine ih _ ?_ a ha
    intro b hb
    cases hc : classifyField opts f with
    | insertParam n a2 => rw [hc] at hb; exact hst b hb
    | setResult a2 =>
      rw [hc] at hb
      have hb2 : some a2 = some b := hb
      have := classify_setResult_noNL hc
      simp at hb2
      rw [← hb2]
      exact this
    | warn m ln => rw [hc] at hb; exact hst b hb
    | noop => rw [hc] at hb; exact hst b hb

/-- The result type the field loop returns never contains a newline. -/
theorem parseFields_result_noNL {opts : POptions} {sl : Nat}
    {fields : List DocField} :
    ∀ a, (parseFields opts sl fields).result = some a → '\n' ∉ a.type.data :=
  parseFields_result_noNL_aux opts sl fields ⟨[], none, []⟩ (by intro a ha; simp at ha)

/-! ## Lemmas about `_parse_parameters_section` output -/

theorem takeWhile_ne_colon_append {n : Line} (r : Line) (hn : ':' ∉ n) :
    (n ++ ':' :: r).takeWhile (· ≠ ':') = n := by
  induction n with
  | nil => simp [List.takeWhile]
  | cons c t ih =>
    have hc : c ≠ ':' := fun he => hn (by rw [he]; exact List.mem_cons_self ..)
    have ht : ':' ∉ t := fun hm => hn (List.mem_cons_of_mem _ hm)
    rw [List.cons_append, List.takeWhile_cons_of_pos (by simpa using hc), ih ht]

/-- Splitting at the first colon is unambiguous for colon-free prefixes. -/
theorem colon_split_unique {n m r s : Line} (hn : ':' ∉ n) (hm : ':' ∉ m)
    (h : n ++ ':' :: r = m ++ ':' :: s) : n = m ∧ r = s := by
  have h1 := congrArg (List.takeWhile (· ≠ ':')) h
  rw [takeWhile_ne_colon_append r hn, takeWhile_ne_colon_append s hm] at h1
  subst h1
  have h2 := List.append_cancel_left h
  simp at h2
  exact ⟨rfl, h2⟩

/-- The lines `_parse_parameters_section` emits: a blank line, `:param`
lines, and `:type` lines for fields with a non-empty type. -/
theorem param_field_lines_mem {fields : List (Line × Line)} {l : Line}
    (hl : l ∈ param_field_lines fields) :
    l = [] ∨ (∃ nt ∈ fields, l = ":param ".data ++ nt.1 ++ [':']) ∨
      (∃ nt ∈ fields, nt.2 ≠ [] ∧
        l = ":type ".data ++ nt.1 ++ ": ".data ++ nt.2) := by
  unfold param_field_lines at hl
  rcases List.mem_append.mp hl with hm | hm
  · rw [List.mem_flatMap] at hm
    obtain ⟨nt, hnt, hmem⟩ := hm
    rcases List.mem_cons.mp hmem with h1 | h1
    · right; left; exact ⟨nt, hnt, h1⟩
    · by_cases ht : (!nt.2.isEmpty) = true
      · rw [if_pos ht] at h1
        simp only [List.mem_singleton] at h1
        right; right
        exact ⟨nt, hnt, by simpa using ht, h1⟩
      · rw [if_neg ht] at h1
        simp at h1
  · simp at hm
    left
    exact hm

theorem param_line_present {fields : List (Line × Line)} {n : Line}
    (h : (n, ([] : Line)) ∈ fields) :
    (":param ".data ++ n ++ [':']) ∈ param_field_lines fields := by
  unfold param_field_lines
  refine List.mem_append_left _ ?_
  rw [List.mem_flatMap]
  exact ⟨(n, []), h, List.mem_cons_self ..⟩

/-- A parameter documented only without a type never gets a `:type` line. -/
theorem no_type_line_for_untyped {fields : List (Line × Line)} {n : Line}
    (hcf : ∀ nt ∈ fields, ':' ∉ nt.1)
    (hall : ∀ t, (n, t) ∈ fields → t = [])
    (hn : ':' ∉ n) :
    ∀ tl, (":type ".data ++ n ++ ": ".data ++ tl) ∉ param_field_lines fields := by
  intro tl hmem
  rcases param_field_lines_mem hmem with h0 | h1 | h2
  · have h0b : (':' :: ((("type ".data ++ n) ++ ": ".data) ++ tl) : Line) = [] := h0
    simp at h0b
  · obtain ⟨nt, hnt, heq⟩ := h1
    have h2b : (some 't' : Option Char) = some 'p' :=
      congrArg (fun l : Line => l.get? 1) heq
    simp at h2b
  · obtain ⟨nt, hnt, htne, heq⟩ := h2
    have h3 : ((n ++ ": ".data) ++ tl) = ((nt.1 ++ ": ".data) ++ nt.2) :=
      congrArg (List.drop 6) heq
    rw [List.append_assoc n, List.append_assoc nt.1] at h3
    have h4 : n ++ ':' :: (' ' :: tl) = nt.1 ++ ':' :: (' ' :: nt.2) := h3
    obtain ⟨hnm, -⟩ := colon_split_unique hn (hcf nt hnt) h4
    have hfm : (n, nt.2) ∈ fields := by
      rw [hnm]
      exact hnt
    exact htne (hall nt.2 hfm)

/-- A key present in the returned params always originates from a
`type name` field that had a body paragraph. -/
theorem params_key_has_type_field {opts : POptions} {sl : Nat}
    {fields : List DocField} {key : String} {a : Arg}
    (h : (key, a) ∈ (parseFields opts sl fields).params) :
    ∃ f ∈ fields, splitWS (pyStrip f.name) = ["type".data, key.data] ∧
      f.paras ≠ [] := by
  rw [params_parseFields] at h
  rcases mem_odFold _ _ h with hm | hm
  · simp at hm
  · rw [rawTypePairs, List.mem_filterMap] at hm
    obtain ⟨f, hf, hcl⟩ := hm
    cases hc : classifyField opts f with
    | insertParam n a2 =>
      rw [hc] at hcl
      dsimp only at hcl
      simp only [Option.some.injEq, Prod.mk.injEq] at hcl
      obtain ⟨hparts, p, hhead, -⟩ := classify_insertParam_shape hc
      refine ⟨f, hf, ?_, ?_⟩
      · rw [hparts, hcl.1]
      · intro hps
        rw [hps] at hhead
        simp at hhead
    | setResult a2 => rw [hc] at hcl; simp at hcl
    | warn m ln => rw [hc] at hcl; simp at hcl
    | noop => rw [hc] at hcl; simp at hcl

/-! ## The claims -/

set_option maxRecDepth 40000

/-- Claim C1 (counterexample).  The claim states that parsing the canonical
reST docstring `":param x: d\n:type x: int\n:rtype: bool"` with default
options yields `params = {"x": Arg("int", 1)}` and `result = Arg("bool", 2)`
(0-based offsets from the docstring start).  The code actually stores the
1-based docutils line numbers — `Arg("int", 2)` and `Arg("bool", 3)` — as
the repository's own tests pin on docstrings with a leading newline, so the
claimed values are wrong. -/
theorem C1_counterexample :
    parse_docstring ":param x: d\n:type x: int\n:rtype: bool" 0 "auto" ⟨true⟩ =
      .ok ⟨[("x", ⟨"int", 2⟩)], some ⟨"bool", 3⟩, []⟩ ∧
    (⟨"int", 2⟩ : Arg) ≠ ⟨"int", 1⟩ ∧ (⟨"bool", 3⟩ : Arg) ≠ ⟨"bool", 2⟩ := by
  refine ⟨by decide, by decide, by decide⟩

/-- Claim C1 (amended).  Parsing the canonical reST docstring
`":param x: d\n:type x: int\n:rtype: bool"` with default options yields
`params = {"x": Arg("int", 2)}` and `result = Arg("bool", 3)`, where the
stored line numbers are the 1-based line numbers of the `:type`/`:rtype`
field bodies within the cleaned docstring, and no diagnostics are
emitted. -/
theorem C1_rest_roundtrip :
    parse_docstring ":param x: d\n:type x: int\n:rtype: bool" 0 "auto" ⟨true⟩ =
      .ok ⟨[("x", ⟨"int", 2⟩)], some ⟨"bool", 3⟩, []⟩ := by
  decide

/-- Claim C2 (code bug).  For the NumPy docstring documenting two named
returns `result1 : str` and `result2 : bool`, parsing with
`allow_named_results = true` is claimed (and asserted by the repository's
own test `test_numpydoc_tuple_result`) to produce `Tuple[str, bool]`; the
code actually produces no result at all: `NAMED_RESULTS_REG` demands a
`" -- "` separator after the parenthesized type, but the vendored napoleon
converter discards descriptions and formats items without a separator, so
the bullet items never match and the loop breaks on the first item. -/
theorem C2_named_results_lost :
    guess_format ("Returns\n-------\nresult1 : str\n    Description of first.\nresult2 : bool\n    Description of second.").data = .numpy ∧
    parse_docstring "Returns\n-------\nresult1 : str\n    Description of first.\nresult2 : bool\n    Description of second." 0 "auto" ⟨true⟩ =
      .ok ⟨[], none, []⟩ := by
  refine ⟨by decide, by decide⟩

/-- Claim C3 (counterexample).  The claim states that a Google docstring with
a `Yields` section documenting `str` parses to
`result = Arg("Iterator[str]", line)`.  The code never synthesizes
`Iterator[...]`: the result component of the parse is `none`. -/
theorem C3_counterexample :
    (parse_docstring "\nYields:\n    str: description" 0 "auto" ⟨true⟩).map
        PDoc.result = .ok none := by
  decide

/-- Claim C3 (amended).  For the Google docstring with a `Yields` section
documenting `str`, the convention is detected as Google and parsing
produces no result and exactly one warning carrying `YIELDS_ERROR`
(`'Yields' is not supported. Use 'Returns' with Iterator[]`) at line 1 of
the converted text. -/
theorem C3_yields_warns :
    guess_format ("\nYields:\n    str: description").data = .google ∧
    parse_docstring "\nYields:\n    str: description" 0 "auto" ⟨true⟩ =
      .ok ⟨[], none, [(YIELDS_ERROR, 1)]⟩ := by
  refine ⟨by decide, by decide⟩

/-- Claim C4.  For the NumPy docstring documenting two named returns, parsing
with `allow_named_results = false` produces no result and exactly one
warning call carrying `NAMED_ITEMS_ERROR` (`Named results are not
supported. Use Tuple[] or NamedTuple`). -/
theorem C4_named_results_disallowed :
    parse_docstring "Returns\n-------\nresult1 : str\n    Description of first.\nresult2 : bool\n    Description of second." 0 "auto" ⟨false⟩ =
      .ok ⟨[], none, [(NAMED_ITEMS_ERROR, 1)]⟩ := by
  decide

/-- Claim C5 (counterexample).  The claim's "in particular" sentence says any
docstring containing both a Google `Args:` section header and the substring
`:rtype:` is classified as Google; a docstring that additionally contains a
NumPy `Parameters` section is classified as NumPy (NumPy has priority), so
the universal statement is false. -/
theorem C5_counterexample :
    guess_format ("Parameters\n----------\nArgs:\n    x: d\n:rtype: bool").data = .numpy ∧
    patOccurs "Args:\n".data
      (cleandocL ("Parameters\n----------\nArgs:\n    x: d\n:rtype: bool").data) = true ∧
    containsSeq ":rtype:".data
      (cleandocL ("Parameters\n----------\nArgs:\n    x: d\n:rtype: bool").data) = true ∧
    FormatKind.numpy ≠ FormatKind.google := by
  refine ⟨by decide, by decide, by decide, by decide⟩

/-- Claim C5 (amended).  Convention detection cleans the docstring and tests
the pattern sets in the fixed order NumPy, Google, reST, returning the
first match and defaulting to reST: the result is NumPy exactly when the
NumPy patterns match; Google exactly when Google matches and NumPy does
not; reST exactly when neither matches.  In particular a docstring whose
cleaned text contains a Google `Args:` header (and, say, `:rtype:`
elsewhere) is classified as Google provided no NumPy pattern matches. -/
theorem C5_detection_priority :
    (∀ s : Line, guess_format s = .numpy ↔
      formatMatches .numpy (cleandocL s) = true) ∧
    (∀ s : Line, guess_format s = .google ↔
      (formatMatches .numpy (cleandocL s) = false ∧
        formatMatches .google (cleandocL s) = true)) ∧
    (∀ s : Line, guess_format s = .rest ↔
      (formatMatches .numpy (cleandocL s) = false ∧
        formatMatches .google (cleandocL s) = false)) ∧
    (∀ s : Line, patOccurs "Args:\n".data (cleandocL s) = true →
      containsSeq ":rtype:".data (cleandocL s) = true →
      formatMatches .numpy (cleandocL s) = false →
      guess_format s = .google) := by
  refine ⟨?_, ?_, ?_, ?_⟩
  · intro s
    unfold guess_format
    by_cases h1 : formatMatches .numpy (cleandocL s) = true <;>
      by_cases h2 : formatMatches .google (cleandocL s) = true <;>
        simp [h1, h2]
  · intro s
    unfold guess_format
    by_cases h1 : formatMatches .numpy (cleandocL s) = true <;>
      by_cases h2 : formatMatches .google (cleandocL s) = true <;>
        simp [h1, h2]
  · intro s
    unfold guess_format
    by_cases h1 : formatMatches .numpy (cleandocL s) = true <;>
      by_cases h2 : formatMatches .google (cleandocL s) = true <;>
        simp [h1, h2]
  · intro s hargs _ hnum
    have hg : formatMatches .google (cleandocL s) = true := by
      unfold formatMatches sectionsPats
      simp only [List.map_cons, List.map_nil, List.any_cons, List.any_nil,
        Bool.or_eq_true]
      exact Or.inl hargs
    unfold guess_format
    simp [hnum, hg]

/-- Claim C5 (witness). -/
theorem C5_witness :
    guess_format ("Args:\n    x (int): d\n\nsee :rtype: prose").data = .google :=
  C5_detection_priority.2.2.2 _ (by decide) (by decide) (by decide)

/-- Claim C6.  The public parse entry point with automatic convention
detection never raises for any input string, and the blank and
prose-only docstrings both parse to an empty params mapping, no result, and
no diagnostics. -/
theorem C6_parse_never_raises :
    (∀ (s : String) (l : Nat) (opts : POptions),
      ∃ out, parse_docstring s l "auto" opts = .ok out) ∧
    parse_docstring "" 0 "auto" ⟨true⟩ = .ok ⟨[], none, []⟩ ∧
    parse_docstring "just prose, no sections" 0 "auto" ⟨true⟩ =
      .ok ⟨[], none, []⟩ := by
  refine ⟨?_, by decide, by decide⟩
  intro s l opts
  refine ⟨formatParse (guess_format s.data) l opts s.data, ?_⟩
  simp [parse_docstring]

/-- Claim C7.  An explicit convention name outside the known set
(`numpy`, `google`, `rest`) and distinct from `auto` makes the parse entry
point fail immediately with a lookup error instead of silently substituting
a default. -/
theorem C7_unknown_convention_raises :
    ∀ (name : String), name ≠ "auto" → name ≠ "numpy" → name ≠ "google" →
      name ≠ "rest" → ∀ (s : String) (l : Nat) (opts : POptions),
        parse_docstring s l name opts = .error ("KeyError: " ++ name) := by
  intro name h1 h2 h3 h4 s l opts
  unfold parse_docstring
  rw [if_neg h1]
  have hm : format_map name = none := by
    unfold format_map
    rw [if_neg h2, if_neg h3, if_neg h4]
  rw [hm]

/-- Claim C7 (witness). -/
theorem C7_witness :
    parse_docstring "x" 0 "gogle" ⟨true⟩ = .error ("KeyError: " ++ "gogle") :=
  C7_unknown_convention_raises "gogle" (by decide) (by decide) (by decide)
    (by decide) "x" 0 ⟨true⟩

/-- Claim C8.  For every docstring and format, the returned params mapping
has no duplicate keys; its keys appear in first-occurrence order of the raw
documented `type` fields, and each key maps to the value of the last field
that documented it (ordered-dict semantics: last value wins, first
occurrence fixes the position). -/
theorem C8_params_ordered_last_wins :
    ∀ (k : FormatKind) (sl : Nat) (opts : POptions) (s : String),
      (((formatParse k sl opts s.data).params.map Prod.fst).Nodup) ∧
      ((formatParse k sl opts s.data).params.map Prod.fst =
        firstOccs ((rawTypePairs opts
          (extractFields (to_rest k s.data))).map Prod.fst)) ∧
      (∀ key, lookupPD (formatParse k sl opts s.data).params key =
        lastVal (rawTypePairs opts (extractFields (to_rest k s.data))) key) := by
  intro k sl opts s
  have hfp : formatParse k sl opts s.data =
      parseFields opts sl (extractFields (to_rest k s.data)) := rfl
  refine ⟨?_, ?_, ?_⟩
  · rw [hfp, params_parseFields]
    exact nodup_keys_odFold _ [] (by simp)
  · rw [hfp, params_parseFields, keys_odFold]
    rfl
  · intro key
    rw [hfp, params_parseFields, lookup_odFold]
    simp [lookupPD, List.find?]

/-- Claim C9 (counterexample).  The claim states every `Arg.type` in the
returned model is non-empty; the docstring
`":returns: * **a** () -- x"` (a named-results bullet with an empty
parenthesized type) parses to `result = Arg("", 1)` — an empty type
string. -/
theorem C9_counterexample :
    parse_docstring ":returns: * **a** () -- x" 0 "auto" ⟨true⟩ =
      .ok ⟨[], some ⟨"", 1⟩, []⟩ := by
  decide

/-- Claim C9 (amended).  Every parameter `Arg.type` in the returned model is
non-empty and newline-free; every result `Arg.type` is newline-free
(newlines are replaced by single spaces), though a result synthesized from
a named-results bullet list with an empty parenthesized type may be empty;
in particular the multi-line type
`"Union[Dict[str,int],\n    List[Tuple[str, int]]]"` is returned as the
single-spaced `"Union[Dict[str,int], List[Tuple[str, int]]]"`. -/
theorem C9_types_normalized :
    (∀ (k : FormatKind) (sl : Nat) (opts : POptions) (s : String)
       (x : String × Arg), x ∈ (formatParse k sl opts s.data).params →
         x.2.type ≠ "" ∧ '\n' ∉ x.2.type.data) ∧
    (∀ (k : FormatKind) (sl : Nat) (opts : POptions) (s : String) (a : Arg),
       (formatParse k sl opts s.data).result = some a →
         '\n' ∉ a.type.data) ∧
    parse_docstring ":param x: d\n:type x: Union[Dict[str,int],\n    List[Tuple[str, int]]]" 0 "auto" ⟨true⟩ =
      .ok ⟨[("x", ⟨"Union[Dict[str,int], List[Tuple[str, int]]]", 2⟩)],
        none, []⟩ := by
  refine ⟨?_, ?_, by decide⟩
  · intro k sl opts s x hx
    exact parseFields_params_good
      (fun f hf => extractFields_paras_good hf) x hx
  · intro k sl opts s a ha
    exact parseFields_result_noNL a ha

/-- Claim C9 (witness). -/
theorem C9_witness :
    ("int" : String) ≠ "" ∧ '\n' ∉ ("int" : String).data :=
  C9_types_normalized.1 .rest 0 ⟨true⟩ ":type x: int" ("x", ⟨"int", 1⟩)
    (by decide)

/-- Claim C10.  A parameter documented with a name but no type produces only
a `:param name:` line (and no `:type name:` line) in the intermediate
reStructuredText emitted by `_parse_parameters_section`; consequently any
key in the returned params mapping must originate from a `type name` field
with a body paragraph, so such a parameter is entirely absent from the
mapping.  Concretely, for a Google and for a NumPy docstring documenting
`x` without a type and `y` with type `int`, the params mapping contains
only `y`. -/
theorem C10_untyped_param_absent :
    (∀ (fields : List (Line × Line)) (n : Line),
       (n, ([] : Line)) ∈ fields →
       (∀ nt ∈ fields, ':' ∉ nt.1) →
       (∀ t, (n, t) ∈ fields → t = []) →
         ((":param ".data ++ n ++ [':']) ∈ param_field_lines fields ∧
          ∀ tl, (":type ".data ++ n ++ ": ".data ++ tl) ∉
            param_field_lines fields)) ∧
    (∀ (opts : POptions) (sl : Nat) (fields : List DocField) (key : String)
       (a : Arg), (key, a) ∈ (parseFields opts sl fields).params →
         ∃ f ∈ fields, splitWS (pyStrip f.name) = ["type".data, key.data] ∧
           f.paras ≠ []) ∧
    parse_docstring "\nArgs:\n    x: first\n    y (int): second" 0 "auto" ⟨true⟩ =
      .ok ⟨[("y", ⟨"int", 3⟩)], none, []⟩ ∧
    parse_docstring "Parameters\n----------\nx\n    first\ny : int\n    second" 0 "auto" ⟨true⟩ =
      .ok ⟨[("y", ⟨"int", 3⟩)], none, []⟩ := by
  refine ⟨?_, ?_, by decide, by decide⟩
  · intro fields n hmem hcf hall
    have hn : ':' ∉ n := hcf (n, []) hmem
    exact ⟨param_line_present hmem, no_type_line_for_untyped hcf hall hn⟩
  · intro opts sl fields key a h
    exact params_key_has_type_field h

/-- Claim C10 (witness). -/
theorem C10_witness :
    (":param ".data ++ ['x'] ++ [':']) ∈
      param_field_lines [((['x'] : Line), ([] : Line)),
        ((['y'] : Line), (['i', 'n', 't'] : Line))] :=
  (C10_untyped_param_absent.1 _ ['x'] (by decide) (by decide)
    (by
      intro t ht
      rcases List.mem_cons.mp ht with h | h
      · have h2 := congrArg Prod.snd h
        simpa using h2
      · rcases List.mem_cons.mp h with h3 | h3
        · have h4 : (['x'] : Line) = ['y'] := congrArg Prod.fst h3
          exact absurd h4 (by decide)
        · simp at h3)).1

end Doc484
